import Mathlib

/-!
# ac_display_reader: shift-register capture and model selection

A shallow embedding of `src/ac_manager/ac_display_reader.cpp`.

* The globals `acModel`, `cycleStart`, `byteBuffer` and `currentByte` are the
  fields of `State`.  The pointer `currentByte` is kept as its offset
  `currentByte - byteBuffer`.
* `BUFFER_LEN` and `UPDATE_TIME_MAX` are macros of the header
  `ac_display_reader_p.h`; they are the parameters `N` and `U` of every
  definition.
* `micros()` and `digitalRead(inputPin) == HIGH` are the two inputs of the
  interrupt handler: the raw 32-bit counter value and the sampled level.
* `int` and `unsigned int` are 32 bits wide (the target is a 32-bit ARM core),
  `uint8_t` is 8 bits wide.
-/

namespace AcDisplayReader

/-- The enumeration `AcModels` of the header: the two supported units. -/
inductive AcModels where
  | V1_2
  | V1_4
  deriving DecidableEq, Repr

/-- The mutable globals of `ac_display_reader.cpp` that the two routines touch. -/
structure State where
  /-- The global `AcModels acModel`. -/
  acModel : AcModels
  /-- The global `unsigned int cycleStart`. -/
  cycleStart : Nat
  /-- The offset `currentByte - byteBuffer` of the pointer `currentByte`. -/
  currentByte : Nat
  /-- The array `volatile uint8_t byteBuffer[BUFFER_LEN]`. -/
  byteBuffer : List Nat
  deriving DecidableEq, Repr

/-- Conversion of an integer to `unsigned int`: reduction modulo `2^32`. -/
def toUnsigned (x : Int) : Nat := (x % 4294967296).toNat

/-- Conversion of a 32-bit counter value to `int` (two's complement). -/
def toSigned (n : Nat) : Int :=
  if n % 4294967296 < 2147483648 then ((n % 4294967296 : Nat) : Int)
  else ((n % 4294967296 : Nat) : Int) - 4294967296

/-- The state after static initialisation: `acModel = V1_2`, `cycleStart = 0`,
`byteBuffer` zero-filled and `currentByte = byteBuffer`. -/
def initialState (N : Nat) : State :=
  { acModel := AcModels.V1_2, cycleStart := 0, currentByte := 0,
    byteBuffer := List.replicate N 0 }

/-- The function `setAcModel`: result code and new state.  The comparison
`acModelName == "V1_2"` is string equality. -/
def setAcModel (acModelName : String) (s : State) : Int × State :=
  if acModelName = "V1_2" then
    (12, { s with acModel := AcModels.V1_2 })
  else
    (14, { s with acModel := AcModels.V1_4 })

/-- The test of line 59: `cycleStart == 0 || (now - cycleStart) > UPDATE_TIME_MAX`
with `int now = micros()`; the subtraction and the comparison are unsigned. -/
def newCycle (U : Nat) (s : State) (micros : Nat) : Bool :=
  decide (s.cycleStart = 0) || decide (U < toUnsigned (toSigned micros - (s.cycleStart : Int)))

/-- Lines 60-68: `currentByte++` followed by the roll-over test, both skipped
when `cycleStart == 0`. -/
def advance (N : Nat) (s : State) : State :=
  if s.cycleStart ≠ 0 then
    { s with currentByte := if s.currentByte + 1 = N then 0 else s.currentByte + 1 }
  else s

/-- Reading `*currentByte`. -/
def load (s : State) : Nat := s.byteBuffer.getD s.currentByte 0

/-- Writing `*currentByte = v`. -/
def store (s : State) (v : Nat) : State :=
  { s with byteBuffer := s.byteBuffer.set s.currentByte v }

/-- The interrupt handler `clock_Interrupt_Handler`; `micros` is the value
returned by `micros()` and `high` tells whether `digitalRead(inputPin) == HIGH`. -/
def clock_Interrupt_Handler (N U : Nat) (micros : Nat) (high : Bool) (s : State) : State :=
  let now : Int := toSigned micros
  let s1 : State :=
    if newCycle U s micros then
      store { advance N s with cycleStart := toUnsigned now } 0
    else s
  let s2 : State := store s1 ((load s1 * 2) % 256)
  if high then store s2 (load s2 ||| 1) else s2

/-- One rising edge of the register clock as the handler sees it. -/
structure Edge where
  /-- The value `micros()` returns during the invocation. -/
  micros : Nat
  /-- Whether the data line reads `HIGH`. -/
  high : Bool
  deriving DecidableEq, Repr

/-- The handler run once per edge, in order. -/
def run (N U : Nat) : State → List Edge → State
  | s, [] => s
  | s, e :: es => run N U (clock_Interrupt_Handler N U e.micros e.high s) es

/-- What can happen to the globals: a clock edge or a call of `setAcModel`. -/
inductive Event where
  | edge (micros : Nat) (high : Bool)
  | setModel (acModelName : String)

/-- The effect of one event on the globals. -/
def execEvent (N U : Nat) (s : State) : Event → State
  | Event.edge t b => clock_Interrupt_Handler N U t b s
  | Event.setModel name => (setAcModel name s).2

/-- The effect of a sequence of events. -/
def exec (N U : Nat) : State → List Event → State
  | s, [] => s
  | s, ev :: evs => exec N U (execEvent N U s ev) evs

/-- How many edges of a run take the branch of line 59. -/
def countNewCycles (N U : Nat) : State → List Edge → Nat
  | _, [] => 0
  | s, e :: es =>
    (if newCycle U s e.micros then 1 else 0)
      + countNewCycles N U (clock_Interrupt_Handler N U e.micros e.high s) es

/-! ## Reading of the claims: frames and their values -/

/-- The sampled level as a number. -/
def bitValue (b : Bool) : Nat := if b then 1 else 0

/-- The sum `b_1 * 2^(k-1) + ... + b_k * 2^0` of a frame `b_1..b_k`. -/
def bitSum : List Bool → Nat
  | [] => 0
  | b :: bs => bitValue b * 2 ^ bs.length + bitSum bs

/-- The byte a frame stands for: its `bitSum` modulo 256. -/
def frameValue (bits : List Bool) : Nat := bitSum bits % 256

/-- Time from `start` to `t` on the 32-bit counter: the difference modulo `2^32`. -/
def elapsed (t start : Nat) : Nat := (((t : Int) - (start : Int)) % 4294967296).toNat

/-- Frames of the edges that follow a frame begun at time `first` whose levels
so far are `cur`: an edge more than `U` after `first` closes the frame and
begins the next one. -/
def framesFrom (U : Nat) : Nat → List Bool → List Edge → List (List Bool)
  | _, cur, [] => [cur]
  | first, cur, e :: es =>
    if U < elapsed e.micros first then cur :: framesFrom U e.micros [e.high] es
    else framesFrom U first (cur ++ [e.high]) es

/-- The frames `F_0..F_m` of an edge sequence, each as its list of levels. -/
def frames (U : Nat) : List Edge → List (List Bool)
  | [] => []
  | e :: es => framesFrom U e.micros [e.high] es

/-- The buffer `buf` shows the frames `fs` in a ring of `N` slots: every slot
holds the value of the last frame whose index is congruent to it, and 0 when
there is no such frame. -/
def BufferShows (N : Nat) (fs : List (List Bool)) (buf : List Nat) : Prop :=
  ∀ slot, slot < N →
    (∀ j, j < fs.length → j % N = slot →
        (∀ k, j < k → k < fs.length → k % N ≠ slot) →
        buf.getD slot 0 = frameValue (fs.getD j [])) ∧
    ((∀ j, j < fs.length → j % N ≠ slot) → buf.getD slot 0 = 0)

/-- The six edges of the end-to-end scenario: the first at time `t0`, the
others 500, 500, 1500, 200 and 200 microseconds after their predecessor, with
levels 1, 0, 1, 1, 0, 1. -/
def scenarioEdges (t0 : Nat) : List Edge :=
  [ { micros := t0, high := true }, { micros := t0 + 500, high := false },
    { micros := t0 + 1000, high := true }, { micros := t0 + 2500, high := true },
    { micros := t0 + 2700, high := false }, { micros := t0 + 2900, high := true } ]

/-- Time of the first edge of the frame that is current after the edges given,
for a frame begun at time `first`: it moves to each edge that lies more than
`U` after it. -/
def frameStartFrom (U : Nat) : Nat → List Edge → Nat
  | first, [] => first
  | first, e :: es =>
    if U < elapsed e.micros first then frameStartFrom U e.micros es
    else frameStartFrom U first es

/-- Time of the first edge of the last frame of an edge sequence (0 for the
empty sequence, which has no frame). -/
def frameStart (U : Nat) : List Edge → Nat
  | [] => 0
  | e :: es => frameStartFrom U e.micros es

/-- The levels sampled at the edges, in order. -/
def levels (edges : List Edge) : List Bool := edges.map Edge.high

/-! ## Arithmetic of the handler -/

theorem lor_one_of_even (w : Nat) (h : w % 2 = 0) : w ||| 1 = w + 1 := by
  apply Nat.eq_of_testBit_eq
  intro i
  rw [Nat.testBit_lor]
  cases i with
  | zero => simp [Nat.testBit_zero]; omega
  | succ i =>
    simp [Nat.testBit_succ]
    congr 1
    omega

theorem toUnsigned_toSigned (t : Nat) : toUnsigned (toSigned t) = t % 4294967296 := by
  unfold toUnsigned toSigned
  split <;> omega

theorem toUnsigned_sub (t c : Nat) :
    toUnsigned (toSigned t - (c : Int)) = elapsed t c := by
  unfold toUnsigned toSigned elapsed
  split <;> omega

theorem newCycle_iff (U : Nat) (s : State) (t : Nat) :
    newCycle U s t = true ↔ s.cycleStart = 0 ∨ U < elapsed t s.cycleStart := by
  simp [newCycle, toUnsigned_sub]

theorem set_getD_self (buf : List Nat) (c v : Nat) :
    (buf.set c v).getD c 0 = if c < buf.length then v else 0 := by
  by_cases h : c < buf.length
  · simp [List.getD_eq_getElem?_getD, List.getElem?_set, h]
  · have h2 : buf.length ≤ c := Nat.le_of_not_lt h
    simp [List.getD_eq_getElem?_getD, List.getElem?_set, h, List.getElem?_eq_none h2]

theorem set_beyond (buf : List Nat) (c v : Nat) (h : buf.length ≤ c) : buf.set c v = buf := by
  apply List.ext_getElem?
  intro i
  rw [List.getElem?_set]
  split
  · subst c
    simp only [Nat.not_lt.mpr h, if_false]
    exact (List.getElem?_eq_none h).symm
  · rfl

/-- Shifting the byte at the cursor and or-ing in the level, as one write. -/
theorem shift_in (s : State) (high : Bool) :
    (if high then store (store s ((load s * 2) % 256)) (load (store s ((load s * 2) % 256)) ||| 1)
      else store s ((load s * 2) % 256))
      = store s ((load s * 2) % 256 + bitValue high) := by
  by_cases hc : s.currentByte < s.byteBuffer.length
  · cases high
    · simp [bitValue]
    · simp only [store, load, set_getD_self, hc, if_true, List.set_set, bitValue]
      rw [lor_one_of_even _ (by omega)]
  · have h2 : s.byteBuffer.length ≤ s.currentByte := Nat.le_of_not_lt hc
    cases high <;> simp [store, set_beyond _ _ _ h2]

theorem advance_currentByte (N : Nat) (s : State) :
    (advance N s).currentByte =
      if s.cycleStart = 0 then s.currentByte
      else if s.currentByte + 1 = N then 0 else s.currentByte + 1 := by
  unfold advance
  by_cases h0 : s.cycleStart = 0 <;> simp [h0]

theorem advance_rest (N : Nat) (s : State) :
    (advance N s).byteBuffer = s.byteBuffer ∧ (advance N s).acModel = s.acModel
      ∧ (advance N s).cycleStart = s.cycleStart := by
  unfold advance
  by_cases h0 : s.cycleStart = 0 <;> simp [h0]

theorem handler_newCycle (N U t : Nat) (high : Bool) (s : State)
    (h : newCycle U s t = true) :
    clock_Interrupt_Handler N U t high s =
      { acModel := s.acModel, cycleStart := t % 4294967296,
        currentByte := (advance N s).currentByte,
        byteBuffer := s.byteBuffer.set (advance N s).currentByte (bitValue high) } := by
  unfold clock_Interrupt_Handler
  simp only [h, if_true]
  rw [shift_in]
  obtain ⟨hb, hm, _⟩ := advance_rest N s
  by_cases hc : (advance N s).currentByte < s.byteBuffer.length
  · simp [store, load, toUnsigned_toSigned, set_getD_self, hb, hm, hc]
  · have h2 : s.byteBuffer.length ≤ (advance N s).currentByte := Nat.le_of_not_lt hc
    simp [store, load, toUnsigned_toSigned, hb, hm, set_beyond _ _ _ h2]

theorem handler_sameCycle (N U t : Nat) (high : Bool) (s : State)
    (h : newCycle U s t = false) :
    clock_Interrupt_Handler N U t high s =
      { s with byteBuffer :=
          s.byteBuffer.set s.currentByte ((s.byteBuffer.getD s.currentByte 0 * 2) % 256 + bitValue high) } := by
  unfold clock_Interrupt_Handler
  simp only [h]
  simp only [Bool.false_eq_true, if_false]
  rw [shift_in]
  rfl

theorem bitValue_le_one (b : Bool) : bitValue b ≤ 1 := by
  cases b <;> simp [bitValue]

theorem bitSum_append (cur : List Bool) (b : Bool) :
    bitSum (cur ++ [b]) = 2 * bitSum cur + bitValue b := by
  induction cur with
  | nil => simp [bitSum]
  | cons c cs ih =>
    have e : (c :: cs) ++ [b] = c :: (cs ++ [b]) := rfl
    rw [e, bitSum, bitSum, ih, List.length_append, List.length_singleton, pow_succ]
    ring

theorem frameValue_single (b : Bool) : frameValue [b] = bitValue b := by
  have := bitValue_le_one b
  simp only [frameValue, bitSum, List.length_nil, pow_zero]
  omega

theorem frameValue_append (cur : List Bool) (b : Bool) :
    frameValue (cur ++ [b]) = (frameValue cur * 2) % 256 + bitValue b := by
  have := bitValue_le_one b
  simp only [frameValue, bitSum_append]
  omega

theorem succ_mod_ring (N d : Nat) (hN : 0 < N) :
    (if d % N + 1 = N then 0 else d % N + 1) = (d + 1) % N := by
  have hlt := Nat.mod_lt d hN
  have e : (d + 1) % N = (d % N + 1) % N := (Nat.mod_add_mod d N 1).symm
  rw [e]
  split
  · next h => rw [h, Nat.mod_self]
  · next h => exact (Nat.mod_eq_of_lt (by omega : d % N + 1 < N)).symm

theorem getD_set_ne (buf : List Nat) (i j v : Nat) (h : i ≠ j) :
    (buf.set i v).getD j 0 = buf.getD j 0 := by
  simp [List.getD_eq_getElem?_getD, List.getElem?_set, h]

theorem getD_append_last (done : List (List Bool)) (x : List Bool) :
    (done ++ [x]).getD done.length [] = x := by
  simp [List.getD_eq_getElem?_getD]

theorem getD_append_before (done rest : List (List Bool)) (j : Nat) (h : j < done.length) :
    (done ++ rest).getD j [] = done.getD j [] := by
  simp [List.getD_eq_getElem?_getD, List.getElem?_append_left h]

/-- Writing the value of frame `n` into slot `n % N` keeps the buffer in step
with the frames when frame `n` is the last one. -/
theorem shows_set (N : Nat) (fs fs' : List (List Bool)) (buf : List Nat)
    (n v : Nat) (hlen' : fs'.length = n + 1) (hle : fs.length ≤ n + 1) (hge : n ≤ fs.length)
    (hagree : ∀ j, j < n → fs'.getD j [] = fs.getD j [])
    (hbuf : buf.length = N) (h : BufferShows N fs buf)
    (hv : v = frameValue (fs'.getD n [])) :
    BufferShows N fs' (buf.set (n % N) v) := by
  intro slot hslot
  by_cases hs : slot = n % N
  · subst hs
    rw [set_getD_self, if_pos (by omega)]
    constructor
    · intro j hj hjm hlast
      have hjn : j = n := by
        by_contra hne
        exact hlast n (by omega) (by omega) rfl
      subst hjn
      exact hv
    · intro hno
      exact absurd rfl (hno n (by omega))
  · rw [getD_set_ne _ _ _ _ (fun e => hs e.symm)]
    constructor
    · intro j hj hjm hlast
      have hjn : j ≠ n := by
        intro e
        subst e
        exact hs hjm.symm
      have hlt : j < n := by omega
      rw [hagree j hlt]
      exact (h slot hslot).1 j (by omega) hjm (fun k hk hkl => hlast k hk (by omega))
    · intro hno
      exact (h slot hslot).2 (fun j hj => hno j (by omega))

/-- The run of the handler from a state that is inside frame number
`done.length`, whose levels so far are `cur`, stays in step with `framesFrom`. -/
theorem run_tracks (N U : Nat) (hN : 0 < N) :
    ∀ (edges : List Edge) (s : State) (done : List (List Bool)) (cur : List Bool),
      (∀ e ∈ edges, 0 < e.micros ∧ e.micros < 4294967296) →
      s.cycleStart ≠ 0 →
      s.currentByte = done.length % N →
      s.byteBuffer.length = N →
      BufferShows N (done ++ [cur]) s.byteBuffer →
      (run N U s edges).currentByte
          = ((done ++ framesFrom U s.cycleStart cur edges).length - 1) % N
        ∧ (run N U s edges).byteBuffer.length = N
        ∧ BufferShows N (done ++ framesFrom U s.cycleStart cur edges)
            (run N U s edges).byteBuffer := by
  intro edges
  induction edges with
  | nil =>
    intro s done cur _ _ hc hl hb
    simp only [run, framesFrom]
    refine ⟨?_, hl, hb⟩
    simp [hc]
  | cons e es ih =>
    intro s done cur ht h0 hc hl hb
    have hte := ht e (List.mem_cons_self _ _)
    have hts : ∀ x ∈ es, 0 < x.micros ∧ x.micros < 4294967296 :=
      fun x hx => ht x (List.mem_cons_of_mem _ hx)
    have hmod : e.micros % 4294967296 = e.micros := Nat.mod_eq_of_lt hte.2
    by_cases hn : newCycle U s e.micros = true
    · have hU : U < elapsed e.micros s.cycleStart := by
        rcases (newCycle_iff U s e.micros).1 hn with h | h
        · exact absurd h h0
        · exact h
      have hidx : (advance N s).currentByte = (done ++ [cur]).length % N := by
        rw [advance_currentByte, if_neg h0, hc, List.length_append, List.length_singleton]
        exact succ_mod_ring N done.length hN
      have hstep := handler_newCycle N U e.micros e.high s hn
      rw [hmod] at hstep
      have hfr : done ++ framesFrom U s.cycleStart cur (e :: es)
          = (done ++ [cur]) ++ framesFrom U e.micros [e.high] es := by
        simp [framesFrom, hU]
      have := ih (clock_Interrupt_Handler N U e.micros e.high s) (done ++ [cur]) [e.high] hts
        (by rw [hstep]; simp only; omega)
        (by rw [hstep]; exact hidx)
        (by rw [hstep]; simp [hl])
        (by
          rw [hstep]
          simp only [hidx]
          refine shows_set N (done ++ [cur]) ((done ++ [cur]) ++ [[e.high]]) s.byteBuffer
            (done ++ [cur]).length (bitValue e.high) (by simp) (by omega) (by omega)
            (fun j hj => getD_append_before _ _ j hj) hl hb ?_
          rw [getD_append_last, frameValue_single])
      rw [hstep] at this
      simp only [run]
      rw [hfr, hstep]
      exact this
    · have hn' : newCycle U s e.micros = false := by
        cases h : newCycle U s e.micros
        · rfl
        · exact absurd h hn
      have hU : ¬ U < elapsed e.micros s.cycleStart := by
        intro h
        exact hn ((newCycle_iff U s e.micros).2 (Or.inr h))
      have hstep := handler_sameCycle N U e.micros e.high s hn'
      have hfr : done ++ framesFrom U s.cycleStart cur (e :: es)
          = done ++ framesFrom U s.cycleStart (cur ++ [e.high]) es := by
        simp [framesFrom, hU]
      have hcur : s.byteBuffer.getD s.currentByte 0 = frameValue cur := by
        have hlt : s.currentByte < N := by
          rw [hc]
          exact Nat.mod_lt _ hN
        have := (hb s.currentByte hlt).1 done.length (by simp) hc.symm
          (fun k hk hkl => by simp at hkl; omega)
        rw [this, getD_append_last]
      have := ih (clock_Interrupt_Handler N U e.micros e.high s) done (cur ++ [e.high]) hts
        (by rw [hstep]; exact h0)
        (by rw [hstep]; exact hc)
        (by rw [hstep]; simp [hl])
        (by
          rw [hstep]
          simp only [hc]
          refine shows_set N (done ++ [cur]) (done ++ [cur ++ [e.high]]) s.byteBuffer
            done.length _ (by simp) (by simp) (by simp)
            (fun j hj => by
              rw [getD_append_before _ _ j hj, getD_append_before _ _ j hj]) hl hb ?_
          rw [getD_append_last, frameValue_append, ← hc, hcur])
      rw [hstep] at this
      simp only [run]
      rw [hfr, hstep]
      exact this

/-- The run of the handler from the initial state stays in step with `frames`. -/
theorem run_initial_tracks (N U : Nat) (hN : 1 ≤ N) (edges : List Edge)
    (ht : ∀ e ∈ edges, 0 < e.micros ∧ e.micros < 4294967296) :
    (run N U (initialState N) edges).currentByte = ((frames U edges).length - 1) % N
      ∧ (run N U (initialState N) edges).byteBuffer.length = N
      ∧ BufferShows N (frames U edges) (run N U (initialState N) edges).byteBuffer := by
  have hzero : BufferShows N [] (List.replicate N 0) := by
    intro slot hslot
    constructor
    · intro j hj
      simp at hj
    · intro _
      simp [List.getD_eq_getElem?_getD, List.getElem?_replicate, hslot]
  cases edges with
  | nil =>
    refine ⟨by simp [run, frames, initialState], by simp [run, initialState], ?_⟩
    exact hzero
  | cons e es =>
    have hte := ht e (List.mem_cons_self _ _)
    have hts : ∀ x ∈ es, 0 < x.micros ∧ x.micros < 4294967296 :=
      fun x hx => ht x (List.mem_cons_of_mem _ hx)
    have hmod : e.micros % 4294967296 = e.micros := Nat.mod_eq_of_lt hte.2
    have hn : newCycle U (initialState N) e.micros = true := by
      simp [newCycle, initialState]
    have hstep := handler_newCycle N U e.micros e.high (initialState N) hn
    have hadv : (advance N (initialState N)).currentByte = 0 := by
      simp [advance, initialState]
    rw [hadv, hmod] at hstep
    have := run_tracks N U hN es (clock_Interrupt_Handler N U e.micros e.high (initialState N))
      [] [e.high] hts
      (by rw [hstep]; simp only; omega)
      (by rw [hstep]; simp)
      (by rw [hstep]; simp [initialState])
      (by
        rw [hstep]
        have h := shows_set N [] [[e.high]] (List.replicate N 0) 0 (bitValue e.high)
          (by simp) (by simp) (by simp) (fun j hj => by omega) (by simp) hzero
          (by simp [frameValue_single])
        simpa [initialState] using h)
    rw [hstep] at this
    simp only [List.nil_append] at this
    simp only [run, frames]
    rw [hstep]
    exact this

/-- C1. Replay correctness: for every capacity `N ≥ 1`, every threshold `U`
and every sequence of edges whose timestamps are nonzero 32-bit values, the run
of the handler from the initial state ends with the cursor at `m mod N`, where
`F_0..F_m` are the frames of the sequence, and every slot holds the value of
the last frame whose index is congruent to the slot modulo `N`, or 0 when no
frame was written to it. -/
theorem replay_correct (N U : Nat) (hN : 1 ≤ N) (edges : List Edge)
    (ht : ∀ e ∈ edges, 0 < e.micros ∧ e.micros < 4294967296) :
    (run N U (initialState N) edges).currentByte = ((frames U edges).length - 1) % N
      ∧ (run N U (initialState N) edges).byteBuffer.length = N
      ∧ ∀ slot, slot < N →
          (∀ j, j < (frames U edges).length → j % N = slot →
              (∀ k, j < k → k < (frames U edges).length → k % N ≠ slot) →
              (run N U (initialState N) edges).byteBuffer.getD slot 0
                = frameValue ((frames U edges).getD j [])) ∧
          ((∀ j, j < (frames U edges).length → j % N ≠ slot) →
              (run N U (initialState N) edges).byteBuffer.getD slot 0 = 0) :=
  run_initial_tracks N U hN edges ht

/-- Witness of C1: capacity 3, threshold 1000 and the scenario edges starting
at time 7. -/
theorem replay_correct_witness :
    (1 ≤ 3 ∧ ∀ e ∈ scenarioEdges 7, 0 < e.micros ∧ e.micros < 4294967296)
      ∧ (run 3 1000 (initialState 3) (scenarioEdges 7)).currentByte
          = ((frames 1000 (scenarioEdges 7)).length - 1) % 3
      ∧ (run 3 1000 (initialState 3) (scenarioEdges 7)).byteBuffer.length = 3
      ∧ BufferShows 3 (frames 1000 (scenarioEdges 7))
          (run 3 1000 (initialState 3) (scenarioEdges 7)).byteBuffer :=
  ⟨⟨by decide, by decide⟩,
    replay_correct 3 1000 (by decide) (scenarioEdges 7) (by decide)⟩

/-- C2. The call `setAcModel("V1_2")` returns 12 and leaves `acModel` equal to
`V1_2`, whatever the state was before the call. -/
theorem setAcModel_canonical (s : State) :
    (setAcModel "V1_2" s).1 = 12 ∧ (setAcModel "V1_2" s).2.acModel = AcModels.V1_2 := by
  simp [setAcModel]

/-- C3. For every name different from `"V1_2"` the call `setAcModel(name)`
returns 14 and leaves `acModel` equal to `V1_4`; this covers the empty string,
`"v1_2"`, `"V1_2 "` and `"V1_4"`; every call returns a state together with a
code that is 12 or 14. -/
theorem setAcModel_fallback (name : String) (s : State) :
    (name ≠ "V1_2" →
        (setAcModel name s).1 = 14 ∧ (setAcModel name s).2.acModel = AcModels.V1_4)
      ∧ ((setAcModel name s).1 = 12 ∨ (setAcModel name s).1 = 14)
      ∧ (∀ other ∈ ["", "v1_2", "V1_2 ", "V1_4"],
          (setAcModel other s).1 = 14 ∧ (setAcModel other s).2.acModel = AcModels.V1_4) := by
  refine ⟨?_, ?_, ?_⟩
  · intro h
    simp [setAcModel, h]
  · by_cases h : name = "V1_2" <;> simp [setAcModel, h]
  · intro other ho
    have hne : other ≠ "V1_2" := by
      simp only [List.mem_cons, List.mem_singleton, List.not_mem_nil, or_false] at ho
      rcases ho with h | h | h | h <;> subst h <;> decide
    simp [setAcModel, hne]

/-- Witness of C3: the name `"garbage"`. -/
theorem setAcModel_fallback_witness :
    "garbage" ≠ "V1_2"
      ∧ (setAcModel "garbage" (initialState 3)).1 = 14
      ∧ (setAcModel "garbage" (initialState 3)).2.acModel = AcModels.V1_4 :=
  ⟨by decide, (setAcModel_fallback "garbage" (initialState 3)).1 (by decide)⟩

theorem newCycle_false_iff (U : Nat) (s : State) (t : Nat) :
    newCycle U s t = false ↔ s.cycleStart ≠ 0 ∧ ¬ U < elapsed t s.cycleStart := by
  rw [← Bool.not_eq_true, newCycle_iff]
  exact not_or

theorem cursor_after_newCycle (N U t : Nat) (high : Bool) (s : State)
    (h0 : s.cycleStart ≠ 0) (hc : s.currentByte < N) (h : U < elapsed t s.cycleStart) :
    (clock_Interrupt_Handler N U t high s).currentByte = (s.currentByte + 1) % N := by
  rw [handler_newCycle N U t high s ((newCycle_iff U s t).2 (Or.inr h))]
  simp only [advance_currentByte, if_neg h0]
  split
  · next e => rw [e, Nat.mod_self]
  · next e => exact (Nat.mod_eq_of_lt (by omega)).symm

theorem cursor_after_sameCycle (N U t : Nat) (high : Bool) (s : State)
    (h0 : s.cycleStart ≠ 0) (h : ¬ U < elapsed t s.cycleStart) :
    (clock_Interrupt_Handler N U t high s).currentByte = s.currentByte := by
  rw [handler_sameCycle N U t high s ((newCycle_false_iff U s t).2 ⟨h0, h⟩)]

/-- C4. In a state whose `cycleStart` is not 0 and whose cursor lies in the
buffer, an edge whose elapsed time `(now - cycleStart) mod 2^32` exceeds
`UPDATE_TIME_MAX` moves the cursor to `(cursor + 1) mod N`, any other edge
leaves the cursor where it is; so the cursor moves by at most one position. -/
theorem cursor_step (N U t : Nat) (high : Bool) (s : State)
    (h0 : s.cycleStart ≠ 0) (hc : s.currentByte < N) :
    (U < elapsed t s.cycleStart →
        (clock_Interrupt_Handler N U t high s).currentByte = (s.currentByte + 1) % N)
      ∧ (¬ U < elapsed t s.cycleStart →
        (clock_Interrupt_Handler N U t high s).currentByte = s.currentByte)
      ∧ ((clock_Interrupt_Handler N U t high s).currentByte = s.currentByte
        ∨ (clock_Interrupt_Handler N U t high s).currentByte = (s.currentByte + 1) % N) := by
  refine ⟨cursor_after_newCycle N U t high s h0 hc, cursor_after_sameCycle N U t high s h0, ?_⟩
  by_cases h : U < elapsed t s.cycleStart
  · exact Or.inr (cursor_after_newCycle N U t high s h0 hc h)
  · exact Or.inl (cursor_after_sameCycle N U t high s h0 h)

/-- Witness of C4: three slots and threshold 1000, a state with
`cycleStart = 100` and the cursor on the last slot, an edge at time 5000. -/
theorem cursor_step_witness :
    ((100 : Nat) ≠ 0 ∧ (2 : Nat) < 3)
      ∧ (1000 < elapsed 5000 100 →
          (clock_Interrupt_Handler 3 1000 5000 true
            { acModel := AcModels.V1_4, cycleStart := 100, currentByte := 2,
              byteBuffer := [1, 2, 3] }).currentByte = (2 + 1) % 3) :=
  ⟨⟨by decide, by decide⟩,
    (cursor_step 3 1000 5000 true
      { acModel := AcModels.V1_4, cycleStart := 100, currentByte := 2,
        byteBuffer := [1, 2, 3] } (by decide) (by decide)).1⟩

theorem handler_keeps_bounds (N U t : Nat) (high : Bool) (s : State) (hN : 1 ≤ N)
    (hc : s.currentByte < N) (hl : s.byteBuffer.length = N) :
    (clock_Interrupt_Handler N U t high s).currentByte < N
      ∧ (clock_Interrupt_Handler N U t high s).byteBuffer.length = N := by
  cases hn : newCycle U s t
  · rw [handler_sameCycle N U t high s hn]
    simp [hc, hl]
  · rw [handler_newCycle N U t high s hn]
    simp only [List.length_set, hl, and_true, advance_currentByte]
    split
    · exact hc
    · split <;> omega

theorem exec_keeps_bounds (N U : Nat) (hN : 1 ≤ N) :
    ∀ (evs : List Event) (s : State), s.currentByte < N → s.byteBuffer.length = N →
      (exec N U s evs).currentByte < N ∧ (exec N U s evs).byteBuffer.length = N := by
  intro evs
  induction evs with
  | nil =>
    intro s hc hl
    exact ⟨hc, hl⟩
  | cons ev evs ih =>
    intro s hc hl
    simp only [exec]
    cases ev with
    | edge t b =>
      have h := handler_keeps_bounds N U t b s hN hc hl
      exact ih _ h.1 h.2
    | setModel name =>
      refine ih _ ?_ ?_
      · simp only [execEvent, setAcModel]
        split <;> exact hc
      · simp only [execEvent, setAcModel]
        split <;> exact hl

/-- C5. For every `N ≥ 1`, in every state reached from the initial state by
handler invocations and `setAcModel` calls in any order, the write cursor is
below `N` and the buffer still has `N` bytes, so the cursor addresses a byte of
the buffer. -/
theorem cursor_in_bounds (N U : Nat) (hN : 1 ≤ N) (evs : List Event) :
    (exec N U (initialState N) evs).currentByte < N
      ∧ (exec N U (initialState N) evs).byteBuffer.length = N
      ∧ (exec N U (initialState N) evs).currentByte
          < (exec N U (initialState N) evs).byteBuffer.length := by
  have h := exec_keeps_bounds N U hN evs (initialState N)
    (by simp only [initialState]; omega) (by simp [initialState])
  exact ⟨h.1, h.2, by rw [h.2]; exact h.1⟩

/-- Witness of C5: two slots, three frames and a model change. -/
theorem cursor_in_bounds_witness :
    1 ≤ 2 ∧
      (exec 2 1000 (initialState 2)
        [Event.edge 5 true, Event.setModel "V1_4", Event.edge 5000 false,
          Event.edge 9000 true]).currentByte < 2 :=
  ⟨by decide,
    (cursor_in_bounds 2 1000 (by decide)
      [Event.edge 5 true, Event.setModel "V1_4", Event.edge 5000 false,
        Event.edge 9000 true]).1⟩

/-- C6. From a state with `cycleStart = 0` and the cursor on byte 0, one
invocation of the handler leaves the cursor on byte 0, makes byte 0 equal to
the sampled bit whatever it held before, and keeps every other byte. -/
theorem first_edge (N U t : Nat) (high : Bool) (s : State)
    (h0 : s.cycleStart = 0) (hc : s.currentByte = 0) (hl : 0 < s.byteBuffer.length) :
    (clock_Interrupt_Handler N U t high s).currentByte = 0
      ∧ (clock_Interrupt_Handler N U t high s).byteBuffer.getD 0 0 = (if high then 1 else 0)
      ∧ (∀ i, i ≠ 0 →
          (clock_Interrupt_Handler N U t high s).byteBuffer.getD i 0 = s.byteBuffer.getD i 0)
      ∧ (clock_Interrupt_Handler N U t high s).byteBuffer.length = s.byteBuffer.length := by
  have hn : newCycle U s t = true := (newCycle_iff U s t).2 (Or.inl h0)
  rw [handler_newCycle N U t high s hn]
  simp only [advance_currentByte, h0, if_true, hc, List.length_set, and_true, true_and]
  refine ⟨?_, ?_⟩
  · rw [set_getD_self, if_pos hl]
    rfl
  · intro i hi
    exact getD_set_ne _ _ _ _ (fun e => hi e.symm)

/-- Witness of C6: a state whose byte 0 holds 77. -/
theorem first_edge_witness :
    ((0 : Nat) = 0 ∧ (0 : Nat) = 0 ∧ 0 < [77, 3].length)
      ∧ (clock_Interrupt_Handler 2 1000 12345 true
          { acModel := AcModels.V1_2, cycleStart := 0, currentByte := 0,
            byteBuffer := [77, 3] }).byteBuffer.getD 0 0 = 1 :=
  ⟨⟨rfl, rfl, by decide⟩,
    (first_edge 2 1000 12345 true
      { acModel := AcModels.V1_2, cycleStart := 0, currentByte := 0, byteBuffer := [77, 3] }
      rfl rfl (by decide)).2.1⟩

/-- C7. With three slots and threshold 1000, for every nonzero start time `t0`
with `t0 + 2900 < 2^31`, the handler run from the initial state on the edges at
`t0`, `t0+500`, `t0+1000`, `t0+2500`, `t0+2700`, `t0+2900` with levels
1,0,1,1,0,1 ends with `byteBuffer = [5, 5, 0]` and the cursor on byte 1. -/
theorem scenario_result (t0 : Nat) (h0 : 0 < t0) (hmax : t0 + 2900 < 2147483648) :
    (run 3 1000 (initialState 3) (scenarioEdges t0)).byteBuffer = [5, 5, 0]
      ∧ (run 3 1000 (initialState 3) (scenarioEdges t0)).currentByte = 1 := by
  have hne : t0 ≠ 0 := by omega
  have hne2 : t0 + 2500 ≠ 0 := by omega
  have e1 : elapsed (t0 + 500) t0 = 500 := by unfold elapsed; omega
  have e2 : elapsed (t0 + 1000) t0 = 1000 := by unfold elapsed; omega
  have e3 : elapsed (t0 + 2500) t0 = 2500 := by unfold elapsed; omega
  have e4 : elapsed (t0 + 2700) (t0 + 2500) = 200 := by unfold elapsed; omega
  have e5 : elapsed (t0 + 2900) (t0 + 2500) = 400 := by unfold elapsed; omega
  have m0 : t0 % 4294967296 = t0 := Nat.mod_eq_of_lt (by omega)
  have m3 : (t0 + 2500) % 4294967296 = t0 + 2500 := Nat.mod_eq_of_lt (by omega)
  have s1 : clock_Interrupt_Handler 3 1000 t0 true (initialState 3)
      = { acModel := AcModels.V1_2, cycleStart := t0, currentByte := 0,
          byteBuffer := [1, 0, 0] } := by
    rw [handler_newCycle _ _ _ _ _ ((newCycle_iff _ _ _).2 (Or.inl rfl))]
    simp [advance_currentByte, initialState, m0, bitValue, List.replicate]
  have s2 : clock_Interrupt_Handler 3 1000 (t0 + 500) false
      { acModel := AcModels.V1_2, cycleStart := t0, currentByte := 0, byteBuffer := [1, 0, 0] }
      = { acModel := AcModels.V1_2, cycleStart := t0, currentByte := 0,
          byteBuffer := [2, 0, 0] } := by
    rw [handler_sameCycle _ _ _ _ _ ((newCycle_false_iff _ _ _).2 ⟨hne, by rw [e1]; decide⟩)]
    simp [bitValue]
  have s3 : clock_Interrupt_Handler 3 1000 (t0 + 1000) true
      { acModel := AcModels.V1_2, cycleStart := t0, currentByte := 0, byteBuffer := [2, 0, 0] }
      = { acModel := AcModels.V1_2, cycleStart := t0, currentByte := 0,
          byteBuffer := [5, 0, 0] } := by
    rw [handler_sameCycle _ _ _ _ _ ((newCycle_false_iff _ _ _).2 ⟨hne, by rw [e2]; decide⟩)]
    simp [bitValue]
  have s4 : clock_Interrupt_Handler 3 1000 (t0 + 2500) true
      { acModel := AcModels.V1_2, cycleStart := t0, currentByte := 0, byteBuffer := [5, 0, 0] }
      = { acModel := AcModels.V1_2, cycleStart := t0 + 2500, currentByte := 1,
          byteBuffer := [5, 1, 0] } := by
    rw [handler_newCycle _ _ _ _ _ ((newCycle_iff _ _ _).2 (Or.inr (by rw [e3]; decide)))]
    simp [advance_currentByte, hne, m3, bitValue]
  have s5 : clock_Interrupt_Handler 3 1000 (t0 + 2700) false
      { acModel := AcModels.V1_2, cycleStart := t0 + 2500, currentByte := 1,
        byteBuffer := [5, 1, 0] }
      = { acModel := AcModels.V1_2, cycleStart := t0 + 2500, currentByte := 1,
          byteBuffer := [5, 2, 0] } := by
    rw [handler_sameCycle _ _ _ _ _ ((newCycle_false_iff _ _ _).2 ⟨hne2, by rw [e4]; decide⟩)]
    simp [bitValue]
  have s6 : clock_Interrupt_Handler 3 1000 (t0 + 2900) true
      { acModel := AcModels.V1_2, cycleStart := t0 + 2500, currentByte := 1,
        byteBuffer := [5, 2, 0] }
      = { acModel := AcModels.V1_2, cycleStart := t0 + 2500, currentByte := 1,
          byteBuffer := [5, 5, 0] } := by
    rw [handler_sameCycle _ _ _ _ _ ((newCycle_false_iff _ _ _).2 ⟨hne2, by rw [e5]; decide⟩)]
    simp [bitValue]
  simp only [scenarioEdges, run, s1, s2, s3, s4, s5, s6, and_self]

/-- Witness of C7: start time 7. -/
theorem scenario_result_witness :
    (0 < 7 ∧ 7 + 2900 < 2147483648)
      ∧ (run 3 1000 (initialState 3) (scenarioEdges 7)).byteBuffer = [5, 5, 0]
      ∧ (run 3 1000 (initialState 3) (scenarioEdges 7)).currentByte = 1 :=
  ⟨⟨by decide, by decide⟩, scenario_result 7 (by decide) (by decide)⟩

theorem framesFrom_length_congr (U : Nat) :
    ∀ (es es' : List Edge) (first : Nat) (cur cur' : List Bool),
      es'.map Edge.micros = es.map Edge.micros →
      (framesFrom U first cur' es').length = (framesFrom U first cur es).length := by
  intro es
  induction es with
  | nil =>
    intro es' first cur cur' h
    cases es' with
    | nil => simp [framesFrom]
    | cons e' es' => simp at h
  | cons e es ih =>
    intro es' first cur cur' h
    cases es' with
    | nil => simp at h
    | cons e' es' =>
      simp only [List.map_cons, List.cons.injEq] at h
      simp only [framesFrom, h.1]
      split
      · simp only [List.length_cons]
        rw [ih es' e.micros [e.high] [e'.high] h.2]
      · exact ih es' first _ _ h.2

theorem frames_length_congr (U : Nat) (es es' : List Edge)
    (h : es'.map Edge.micros = es.map Edge.micros) :
    (frames U es').length = (frames U es).length := by
  cases es with
  | nil =>
    cases es' with
    | nil => rfl
    | cons e' es' => simp at h
  | cons e es =>
    cases es' with
    | nil => simp at h
    | cons e' es' =>
      simp only [List.map_cons, List.cons.injEq] at h
      simp only [frames, h.1]
      exact framesFrom_length_congr U es es' e.micros _ _ h.2

theorem micros_of_same_times (es es' : List Edge)
    (h : es'.map Edge.micros = es.map Edge.micros)
    (ht : ∀ e ∈ es, 0 < e.micros ∧ e.micros < 4294967296) :
    ∀ e ∈ es', 0 < e.micros ∧ e.micros < 4294967296 := by
  intro e he
  have hm : e.micros ∈ es'.map Edge.micros := List.mem_map_of_mem _ he
  rw [h] at hm
  obtain ⟨x, hx, hxe⟩ := List.mem_map.1 hm
  rw [← hxe]
  exact ht x hx

theorem wrapped_run (N U : Nat) (hN : 1 ≤ N) (edges : List Edge)
    (ht : ∀ e ∈ edges, 0 < e.micros ∧ e.micros < 4294967296)
    (hf : (frames U edges).length = N + 1) :
    (run N U (initialState N) edges).currentByte = 0
      ∧ (run N U (initialState N) edges).byteBuffer.getD 0 0
          = frameValue ((frames U edges).getD N []) := by
  obtain ⟨hc, _, hb⟩ := run_initial_tracks N U hN edges ht
  constructor
  · rw [hc, hf]
    simp
  · exact (hb 0 (by omega)).1 N (by omega) (Nat.mod_self N) (fun k hk hkl => by omega)

/-- C8. For every `N ≥ 1` and every edge sequence with nonzero 32-bit
timestamps that has exactly `N + 1` frames `F_0..F_N`, the run from the initial
state ends with the cursor on byte 0, byte 0 holding the value of `F_N`, and a
buffer of `N` bytes; a second sequence with the same timestamps and the same
levels in every frame but `F_0` ends with the same byte 0 and the same cursor. -/
theorem overwrite_oldest (N U : Nat) (hN : 1 ≤ N) (edges : List Edge)
    (ht : ∀ e ∈ edges, 0 < e.micros ∧ e.micros < 4294967296)
    (hf : (frames U edges).length = N + 1) :
    (run N U (initialState N) edges).currentByte = 0
      ∧ (run N U (initialState N) edges).byteBuffer.getD 0 0
          = frameValue ((frames U edges).getD N [])
      ∧ (run N U (initialState N) edges).byteBuffer.length = N
      ∧ ∀ edges' : List Edge,
          edges'.map Edge.micros = edges.map Edge.micros →
          (∀ j, 1 ≤ j → (frames U edges').getD j [] = (frames U edges).getD j []) →
          (run N U (initialState N) edges').byteBuffer.getD 0 0
              = (run N U (initialState N) edges).byteBuffer.getD 0 0
            ∧ (run N U (initialState N) edges').currentByte
              = (run N U (initialState N) edges).currentByte := by
  obtain ⟨hc, hv⟩ := wrapped_run N U hN edges ht hf
  refine ⟨hc, hv, (run_initial_tracks N U hN edges ht).2.1, ?_⟩
  intro edges' hm hsame
  have ht' := micros_of_same_times edges edges' hm ht
  have hf' : (frames U edges').length = N + 1 := by
    rw [frames_length_congr U edges edges' hm, hf]
  obtain ⟨hc', hv'⟩ := wrapped_run N U hN edges' ht' hf'
  exact ⟨by rw [hv', hv, hsame N hN], by rw [hc', hc]⟩

/-- Witness of C8: two slots, threshold 1000 and four edges in three frames. -/
theorem overwrite_oldest_witness :
    (1 ≤ 2
        ∧ (∀ e ∈ [Edge.mk 5 true, Edge.mk 2000 true, Edge.mk 4000 false, Edge.mk 4100 true],
            0 < e.micros ∧ e.micros < 4294967296)
        ∧ (frames 1000
            [Edge.mk 5 true, Edge.mk 2000 true, Edge.mk 4000 false, Edge.mk 4100 true]).length
            = 2 + 1)
      ∧ (run 2 1000 (initialState 2)
          [Edge.mk 5 true, Edge.mk 2000 true, Edge.mk 4000 false, Edge.mk 4100 true]).currentByte
          = 0 :=
  ⟨⟨by decide, by decide, by decide⟩,
    (overwrite_oldest 2 1000 (by decide)
      [Edge.mk 5 true, Edge.mk 2000 true, Edge.mk 4000 false, Edge.mk 4100 true]
      (by decide) (by decide)).1⟩

theorem handler_keeps_cursor (N U t : Nat) (high : Bool) (s : State) (hN : 1 ≤ N)
    (hc : s.currentByte < N) :
    (clock_Interrupt_Handler N U t high s).currentByte < N := by
  cases hn : newCycle U s t
  · rw [handler_sameCycle N U t high s hn]
    exact hc
  · rw [handler_newCycle N U t high s hn]
    simp only [advance_currentByte]
    split
    · exact hc
    · split <;> omega

theorem run_cursor_count (N U : Nat) (hN : 1 ≤ N) :
    ∀ (edges : List Edge) (s : State), s.currentByte < N → s.cycleStart ≠ 0 →
      (∀ e ∈ edges, 0 < e.micros ∧ e.micros < 4294967296) →
      (run N U s edges).currentByte = (s.currentByte + countNewCycles N U s edges) % N := by
  intro edges
  induction edges with
  | nil =>
    intro s hc _ _
    simp only [run, countNewCycles, Nat.add_zero]
    exact (Nat.mod_eq_of_lt hc).symm
  | cons e es ih =>
    intro s hc h0 ht
    have hte := ht e (List.mem_cons_self _ _)
    have hts : ∀ x ∈ es, 0 < x.micros ∧ x.micros < 4294967296 :=
      fun x hx => ht x (List.mem_cons_of_mem _ hx)
    have hb := handler_keeps_cursor N U e.micros e.high s hN hc
    simp only [run, countNewCycles]
    by_cases hU : U < elapsed e.micros s.cycleStart
    · have hn : newCycle U s e.micros = true := (newCycle_iff U s e.micros).2 (Or.inr hU)
      have hcs : (clock_Interrupt_Handler N U e.micros e.high s).cycleStart ≠ 0 := by
        rw [handler_newCycle N U e.micros e.high s hn, Nat.mod_eq_of_lt hte.2]
        simp only
        omega
      rw [ih _ hb hcs hts, cursor_after_newCycle N U e.micros e.high s h0 hc hU, hn, if_pos rfl,
        Nat.mod_add_mod]
      congr 1
      omega
    · have hn : newCycle U s e.micros = false :=
        (newCycle_false_iff U s e.micros).2 ⟨h0, hU⟩
      have hcs : (clock_Interrupt_Handler N U e.micros e.high s).cycleStart ≠ 0 := by
        rw [handler_sameCycle N U e.micros e.high s hn]
        exact h0
      rw [ih _ hb hcs hts, cursor_after_sameCycle N U e.micros e.high s h0 hU, hn]
      simp

/-- C9. For every `N ≥ 1`, from a state with the cursor `c < N` and
`cycleStart` not 0, a run over edges with nonzero 32-bit timestamps of which
`j` start a frame ends with the cursor at `(c + j) mod N`; from cursor 0 this is
`j` when `j < N`, and for `0 < j ≤ N` the cursor is back on 0 exactly when
`j = N`. -/
theorem cursor_periodic (N U : Nat) (hN : 1 ≤ N) (s : State) (edges : List Edge)
    (hc : s.currentByte < N) (h0 : s.cycleStart ≠ 0)
    (ht : ∀ e ∈ edges, 0 < e.micros ∧ e.micros < 4294967296) :
    (run N U s edges).currentByte = (s.currentByte + countNewCycles N U s edges) % N
      ∧ (s.currentByte = 0 →
          (countNewCycles N U s edges < N →
              (run N U s edges).currentByte = countNewCycles N U s edges)
            ∧ (0 < countNewCycles N U s edges → countNewCycles N U s edges ≤ N →
              ((run N U s edges).currentByte = 0 ↔ countNewCycles N U s edges = N))) := by
  have h := run_cursor_count N U hN edges s hc h0 ht
  refine ⟨h, ?_⟩
  intro hz
  rw [hz, Nat.zero_add] at h
  refine ⟨fun hlt => by rw [h, Nat.mod_eq_of_lt hlt], ?_⟩
  intro hpos hle
  rw [h]
  constructor
  · intro hm
    by_contra hne
    rw [Nat.mod_eq_of_lt (by omega)] at hm
    omega
  · intro he
    rw [he, Nat.mod_self]

/-- Witness of C9: three slots, threshold 1000, a state inside a frame begun at
time 100 with the cursor on byte 2, and three edges of which two start a frame. -/
theorem cursor_periodic_witness :
    (1 ≤ 3 ∧ (2 : Nat) < 3 ∧ (100 : Nat) ≠ 0
        ∧ (∀ e ∈ [Edge.mk 5000 true, Edge.mk 5100 false, Edge.mk 9000 true],
            0 < e.micros ∧ e.micros < 4294967296))
      ∧ (run 3 1000
          { acModel := AcModels.V1_4, cycleStart := 100, currentByte := 2,
            byteBuffer := [1, 2, 3] }
          [Edge.mk 5000 true, Edge.mk 5100 false, Edge.mk 9000 true]).currentByte
        = (2 + countNewCycles 3 1000
            { acModel := AcModels.V1_4, cycleStart := 100, currentByte := 2,
              byteBuffer := [1, 2, 3] }
            [Edge.mk 5000 true, Edge.mk 5100 false, Edge.mk 9000 true]) % 3 :=
  ⟨⟨by decide, by decide, by decide, by decide⟩,
    (cursor_periodic 3 1000 (by decide)
      { acModel := AcModels.V1_4, cycleStart := 100, currentByte := 2, byteBuffer := [1, 2, 3] }
      [Edge.mk 5000 true, Edge.mk 5100 false, Edge.mk 9000 true]
      (by decide) (by decide) (by decide)).1⟩

/-- Counterexample to C10: after static initialisation of a one-byte buffer
program the active model is not `V1_4`. -/
theorem initial_model_not_V1_4 : (initialState 1).acModel ≠ AcModels.V1_4 := by
  decide

/-- C10 as amended. In the initial program state, before any call of
`setAcModel`, the active model is `V1_2`, the model `setAcModel` reports with
code 12: selecting `"V1_2"` there returns 12 and changes nothing. -/
theorem initial_model (N : Nat) :
    (initialState N).acModel = AcModels.V1_2
      ∧ setAcModel "V1_2" (initialState N) = (12, initialState N) := by
  simp [initialState, setAcModel]

theorem set_getD_same (buf : List Nat) (c : Nat) : buf.set c (buf.getD c 0) = buf := by
  apply List.ext_getElem?
  intro i
  rw [List.getElem?_set]
  split
  · next h =>
    subst h
    split
    · next hlt => simp [List.getD_eq_getElem?_getD, List.getElem?_eq_getElem hlt]
    · next hge => exact (List.getElem?_eq_none (Nat.le_of_not_lt hge)).symm
  · rfl

theorem countNewCycles_cons_zero (N U : Nat) (s : State) (e : Edge) (es : List Edge)
    (h : countNewCycles N U s (e :: es) = 0) :
    newCycle U s e.micros = false
      ∧ countNewCycles N U (clock_Interrupt_Handler N U e.micros e.high s) es = 0 := by
  simp only [countNewCycles] at h
  cases hn : newCycle U s e.micros
  · rw [hn] at h
    simp at h
    exact ⟨rfl, h⟩
  · rw [hn] at h
    simp at h

/-- A run of edges that all stay in the current cycle only rewrites the byte at
the cursor: it ends up holding the value of the levels seen so far followed by
the new ones. -/
theorem run_sameCycle (N U : Nat) :
    ∀ (rest : List Edge) (s : State) (bits : List Bool),
      s.byteBuffer.getD s.currentByte 0 = frameValue bits →
      countNewCycles N U s rest = 0 →
      run N U s rest =
        { s with byteBuffer := s.byteBuffer.set s.currentByte (frameValue (bits ++ levels rest)) } := by
  intro rest
  induction rest with
  | nil =>
    intro s bits hv _
    simp only [run, levels, List.map_nil, List.append_nil]
    rw [← hv, set_getD_same]
  | cons e es ih =>
    intro s bits hv hcount
    obtain ⟨hn, hrest⟩ := countNewCycles_cons_zero N U s e es hcount
    have hstep := handler_sameCycle N U e.micros e.high s hn
    simp only [run]
    rw [hstep] at hrest ⊢
    by_cases hin : s.currentByte < s.byteBuffer.length
    · rw [ih _ (bits ++ [e.high]) (by
        simp only
        rw [set_getD_self, if_pos hin, frameValue_append, hv]) hrest]
      simp [levels, List.set_set]
    · have hle : s.byteBuffer.length ≤ s.currentByte := Nat.le_of_not_lt hin
      simp only [set_beyond _ _ _ hle] at hrest ⊢
      have := ih s bits hv hrest
      rw [this]
      simp [set_beyond _ _ _ hle]

/-- A whole frame: the edge that opens a cycle followed by edges that stay in
it.  The byte at the new cursor holds the value of the levels of the frame. -/
theorem run_frame (N U : Nat) (s : State) (e : Edge) (rest : List Edge)
    (hnew : newCycle U s e.micros = true)
    (hmid : countNewCycles N U (clock_Interrupt_Handler N U e.micros e.high s) rest = 0)
    (hin : (advance N s).currentByte < s.byteBuffer.length) :
    run N U s (e :: rest) =
      { acModel := s.acModel, cycleStart := e.micros % 4294967296,
        currentByte := (advance N s).currentByte,
        byteBuffer := s.byteBuffer.set (advance N s).currentByte
          (frameValue (levels (e :: rest))) } := by
  have hstep := handler_newCycle N U e.micros e.high s hnew
  simp only [run]
  rw [hstep] at hmid ⊢
  rw [run_sameCycle N U rest _ [e.high] (by
    simp only
    rw [set_getD_self, if_pos hin, frameValue_single]) hmid]
  simp [levels, List.set_set]

theorem bitSum_lt (bits : List Bool) : bitSum bits < 2 ^ bits.length := by
  induction bits with
  | nil => simp [bitSum]
  | cons b bs ih =>
    have hb := bitValue_le_one b
    have hmul : bitValue b * 2 ^ bs.length ≤ 1 * 2 ^ bs.length :=
      Nat.mul_le_mul_right _ hb
    simp only [bitSum, List.length_cons, pow_succ]
    omega

theorem bitSum_append_list (xs ys : List Bool) :
    bitSum (xs ++ ys) = bitSum xs * 2 ^ ys.length + bitSum ys := by
  induction xs with
  | nil => simp [bitSum]
  | cons x xs ih =>
    have e : (x :: xs) ++ ys = x :: (xs ++ ys) := rfl
    rw [e, bitSum, bitSum, ih, List.length_append, pow_add]
    ring

theorem frameValue_last_eight (bits : List Bool) (h : 8 ≤ bits.length) :
    frameValue bits = bitSum (bits.drop (bits.length - 8)) := by
  have hsplit : bits = bits.take (bits.length - 8) ++ bits.drop (bits.length - 8) :=
    (List.take_append_drop _ _).symm
  have hlen : (bits.drop (bits.length - 8)).length = 8 := by
    rw [List.length_drop]
    omega
  have hlt := bitSum_lt (bits.drop (bits.length - 8))
  rw [hlen] at hlt
  have hsum := bitSum_append_list (bits.take (bits.length - 8)) (bits.drop (bits.length - 8))
  rw [← hsplit, hlen] at hsum
  unfold frameValue
  rw [hsum]
  norm_num at hlt ⊢
  omega

theorem advance_in_bounds (N : Nat) (s : State) (hc : s.currentByte < N) :
    (advance N s).currentByte < N := by
  rw [advance_currentByte]
  split
  · exact hc
  · split <;> omega

theorem load_run_frame (N U : Nat) (s : State) (e : Edge) (rest : List Edge)
    (hc : s.currentByte < N) (hl : s.byteBuffer.length = N)
    (hnew : newCycle U s e.micros = true)
    (hmid : countNewCycles N U (clock_Interrupt_Handler N U e.micros e.high s) rest = 0) :
    load (run N U s (e :: rest)) = frameValue (levels (e :: rest))
      ∧ (run N U s (e :: rest)).byteBuffer.length = N
      ∧ (run N U s (e :: rest)).currentByte < N
      ∧ ∀ i, i ≠ (run N U s (e :: rest)).currentByte →
          (run N U s (e :: rest)).byteBuffer.getD i 0 = s.byteBuffer.getD i 0 := by
  have hin : (advance N s).currentByte < s.byteBuffer.length := by
    rw [hl]
    exact advance_in_bounds N s hc
  rw [run_frame N U s e rest hnew hmid hin]
  refine ⟨?_, by simp [hl], advance_in_bounds N s hc, ?_⟩
  · simp only [load]
    rw [set_getD_self, if_pos hin]
  · intro i hi
    exact getD_set_ne _ _ _ _ (fun h => hi h.symm)

/-- C11. A frame opened by a frame-starting edge that has received `k` edges in
all (the others staying in the cycle) leaves the byte at the write cursor below
`2^k`, whatever the buffer held before; for `k < 8` its `8 - k` high-order bits
are therefore 0. -/
theorem underfilled_frame (N U : Nat) (s : State) (e : Edge) (rest : List Edge)
    (hc : s.currentByte < N) (hl : s.byteBuffer.length = N)
    (hnew : newCycle U s e.micros = true)
    (hmid : countNewCycles N U (clock_Interrupt_Handler N U e.micros e.high s) rest = 0)
    (hk : (e :: rest).length < 8) :
    load (run N U s (e :: rest)) < 2 ^ (e :: rest).length
      ∧ load (run N U s (e :: rest)) / 2 ^ (e :: rest).length = 0
      ∧ load (run N U s (e :: rest)) < 256
      ∧ load (run N U s (e :: rest)) = bitSum (levels (e :: rest)) := by
  obtain ⟨hv, _, _, _⟩ := load_run_frame N U s e rest hc hl hnew hmid
  have hlt := bitSum_lt (levels (e :: rest))
  have hlen : (levels (e :: rest)).length = (e :: rest).length := by simp [levels]
  rw [hlen] at hlt
  have hpow : 2 ^ (e :: rest).length ≤ 2 ^ 8 := Nat.pow_le_pow_right (by decide) (by omega)
  have hval : load (run N U s (e :: rest)) = bitSum (levels (e :: rest)) := by
    rw [hv]
    unfold frameValue
    exact Nat.mod_eq_of_lt (by omega)
  rw [hval]
  exact ⟨hlt, Nat.div_eq_of_lt hlt, by omega, rfl⟩

/-- Witness of C11: two slots, threshold 1000, a buffer holding 255 in both
bytes, and a frame of three edges. -/
theorem underfilled_frame_witness :
    ((1 : Nat) < 2 ∧ [255, 255].length = 2
        ∧ newCycle 1000
            { acModel := AcModels.V1_2, cycleStart := 100, currentByte := 1,
              byteBuffer := [255, 255] } 5000 = true
        ∧ countNewCycles 2 1000
            (clock_Interrupt_Handler 2 1000 5000 true
              { acModel := AcModels.V1_2, cycleStart := 100, currentByte := 1,
                byteBuffer := [255, 255] })
            [Edge.mk 5100 true, Edge.mk 5200 true] = 0
        ∧ [Edge.mk 5000 true, Edge.mk 5100 true, Edge.mk 5200 true].length < 8)
      ∧ load (run 2 1000
          { acModel := AcModels.V1_2, cycleStart := 100, currentByte := 1,
            byteBuffer := [255, 255] }
          [Edge.mk 5000 true, Edge.mk 5100 true, Edge.mk 5200 true])
        < 2 ^ [Edge.mk 5000 true, Edge.mk 5100 true, Edge.mk 5200 true].length :=
  ⟨⟨by decide, by decide, by decide, by decide, by decide⟩,
    (underfilled_frame 2 1000
      { acModel := AcModels.V1_2, cycleStart := 100, currentByte := 1, byteBuffer := [255, 255] }
      (Edge.mk 5000 true) [Edge.mk 5100 true, Edge.mk 5200 true]
      (by decide) (by decide) (by decide) (by decide) (by decide)).1⟩

theorem newCycle_setAcModel (U : Nat) (name : String) (s : State) (t : Nat) :
    newCycle U (setAcModel name s).2 t = newCycle U s t := by
  unfold setAcModel newCycle
  split <;> rfl

theorem handler_acModel (N U t : Nat) (high : Bool) (s : State) :
    (clock_Interrupt_Handler N U t high s).acModel = s.acModel := by
  cases hn : newCycle U s t
  · rw [handler_sameCycle N U t high s hn]
  · rw [handler_newCycle N U t high s hn]

/-- C12. The function `setAcModel` leaves the buffer, the write cursor and
`cycleStart` as they are for every name; the handler leaves `acModel` as it is
for every edge; so calling `setAcModel` and then the handler gives the same
state, and the same code, as the handler followed by `setAcModel`. -/
theorem model_capture_independent (N U t : Nat) (high : Bool) (name : String) (s : State) :
    (setAcModel name s).2.byteBuffer = s.byteBuffer
      ∧ (setAcModel name s).2.currentByte = s.currentByte
      ∧ (setAcModel name s).2.cycleStart = s.cycleStart
      ∧ (clock_Interrupt_Handler N U t high s).acModel = s.acModel
      ∧ clock_Interrupt_Handler N U t high (setAcModel name s).2
          = (setAcModel name (clock_Interrupt_Handler N U t high s)).2
      ∧ (setAcModel name s).1 = (setAcModel name (clock_Interrupt_Handler N U t high s)).1 := by
  refine ⟨?_, ?_, ?_, handler_acModel N U t high s, ?_, ?_⟩
  · unfold setAcModel
    split <;> rfl
  · unfold setAcModel
    split <;> rfl
  · unfold setAcModel
    split <;> rfl
  · cases hn : newCycle U s t
    · have hn' : newCycle U (setAcModel name s).2 t = false := by
        rw [newCycle_setAcModel, hn]
      rw [handler_sameCycle N U t high _ hn', handler_sameCycle N U t high s hn]
      unfold setAcModel
      split <;> rfl
    · have hn' : newCycle U (setAcModel name s).2 t = true := by
        rw [newCycle_setAcModel, hn]
      rw [handler_newCycle N U t high _ hn', handler_newCycle N U t high s hn]
      unfold setAcModel advance
      split <;> split <;> rfl
  · unfold setAcModel
    split <;> rfl

/-- C13, the code at the failing input: with three slots and threshold 1000,
the edges at counter values 4294966000, 0 and 100 (all high).  The second edge
opens a frame 1296 microseconds after the first and stores `cycleStart = 0`;
the third edge, 100 microseconds later, is then handled like a first
invocation: the cursor stays on byte 1 and the byte is zeroed again, so the
buffer ends as `[1, 1, 0]` although the second frame has two high levels
(value 3). -/
theorem sentinel_collision :
    (run 3 1000 (initialState 3) [Edge.mk 4294966000 true, Edge.mk 0 true]).cycleStart = 0
      ∧ newCycle 1000
          (run 3 1000 (initialState 3) [Edge.mk 4294966000 true, Edge.mk 0 true]) 100 = true
      ∧ elapsed 100 0 ≤ 1000
      ∧ (run 3 1000 (initialState 3)
          [Edge.mk 4294966000 true, Edge.mk 0 true, Edge.mk 100 true]).byteBuffer = [1, 1, 0]
      ∧ (run 3 1000 (initialState 3)
          [Edge.mk 4294966000 true, Edge.mk 0 true, Edge.mk 100 true]).currentByte = 1
      ∧ frames 1000 [Edge.mk 4294966000 true, Edge.mk 0 true, Edge.mk 100 true]
          = [[true], [true, true]]
      ∧ frameValue [true, true] = 3 := by
  decide

theorem run_cycleStart (N U : Nat) :
    ∀ (es : List Edge) (s : State), s.cycleStart ≠ 0 →
      (∀ x ∈ es, 0 < x.micros ∧ x.micros < 4294967296) →
      (run N U s es).cycleStart = frameStartFrom U s.cycleStart es
        ∧ (run N U s es).cycleStart ≠ 0 := by
  intro es
  induction es with
  | nil =>
    intro s h0 _
    exact ⟨rfl, h0⟩
  | cons e es ih =>
    intro s h0 ht
    have hte := ht e (List.mem_cons_self _ _)
    have hts : ∀ x ∈ es, 0 < x.micros ∧ x.micros < 4294967296 :=
      fun x hx => ht x (List.mem_cons_of_mem _ hx)
    simp only [run, frameStartFrom]
    by_cases hU : U < elapsed e.micros s.cycleStart
    · have hn : newCycle U s e.micros = true := (newCycle_iff U s e.micros).2 (Or.inr hU)
      have hcs : (clock_Interrupt_Handler N U e.micros e.high s).cycleStart = e.micros := by
        rw [handler_newCycle N U e.micros e.high s hn]
        exact Nat.mod_eq_of_lt hte.2
      have := ih (clock_Interrupt_Handler N U e.micros e.high s) (by rw [hcs]; omega) hts
      rw [hcs] at this
      rw [if_pos hU]
      exact this
    · have hn : newCycle U s e.micros = false :=
        (newCycle_false_iff U s e.micros).2 ⟨h0, hU⟩
      have hcs : (clock_Interrupt_Handler N U e.micros e.high s).cycleStart = s.cycleStart := by
        rw [handler_sameCycle N U e.micros e.high s hn]
      have := ih (clock_Interrupt_Handler N U e.micros e.high s) (by rw [hcs]; exact h0) hts
      rw [hcs] at this
      rw [if_neg hU]
      exact this

theorem run_initial_cycleStart (N U : Nat) (pre : List Edge) (hpre : pre ≠ [])
    (ht : ∀ x ∈ pre, 0 < x.micros ∧ x.micros < 4294967296) :
    (run N U (initialState N) pre).cycleStart = frameStart U pre
      ∧ (run N U (initialState N) pre).cycleStart ≠ 0 := by
  cases pre with
  | nil => exact absurd rfl hpre
  | cons e es =>
    have hte := ht e (List.mem_cons_self _ _)
    have hts : ∀ x ∈ es, 0 < x.micros ∧ x.micros < 4294967296 :=
      fun x hx => ht x (List.mem_cons_of_mem _ hx)
    have hn : newCycle U (initialState N) e.micros = true :=
      (newCycle_iff U _ e.micros).2 (Or.inl rfl)
    have hcs : (clock_Interrupt_Handler N U e.micros e.high (initialState N)).cycleStart
        = e.micros := by
      rw [handler_newCycle N U e.micros e.high _ hn]
      exact Nat.mod_eq_of_lt hte.2
    have := run_cycleStart N U es (clock_Interrupt_Handler N U e.micros e.high (initialState N))
      (by rw [hcs]; omega) hts
    rw [hcs] at this
    simp only [run, frameStart]
    exact this

theorem load_after_newCycle (N U t : Nat) (high : Bool) (s : State)
    (hn : newCycle U s t = true) (hin : (advance N s).currentByte < s.byteBuffer.length) :
    load (clock_Interrupt_Handler N U t high s) = bitValue high := by
  rw [handler_newCycle N U t high s hn]
  simp only [load]
  rw [set_getD_self, if_pos hin]

theorem load_after_sameCycle (N U t : Nat) (high : Bool) (s : State)
    (hn : newCycle U s t = false) (hin : s.currentByte < s.byteBuffer.length) :
    load (clock_Interrupt_Handler N U t high s) = (load s * 2) % 256 + bitValue high := by
  rw [handler_sameCycle N U t high s hn]
  simp only [load]
  rw [set_getD_self, if_pos hin]

/-- Counterexample to C14: with threshold 1000 and edges at 5, 605 and 1205,
the third edge comes 600 microseconds after the edge before it, yet the handler
takes it as the start of a new frame. -/
theorem gap_since_previous_edge_fails :
    newCycle 1000 (run 3 1000 (initialState 3) [Edge.mk 5 true, Edge.mk 605 true]) 1205 = true
      ∧ ¬ (1000 < elapsed 1205 605)
      ∧ (run 3 1000 (initialState 3)
          [Edge.mk 5 true, Edge.mk 605 true, Edge.mk 1205 true]).currentByte = 1 := by
  decide

/-- C14 as amended. For every edge sequence with nonzero 32-bit timestamps, an
edge that is not the first starts a new frame if and only if the time elapsed
since the first edge of the current frame, which is what `cycleStart` holds,
exceeds `UPDATE_TIME_MAX` modulo `2^32`; it then moves the cursor on and the
byte there becomes the sampled bit, and otherwise the cursor stays and the byte
is shifted. -/
theorem frame_boundary (N U : Nat) (hN : 1 ≤ N) (pre : List Edge) (e : Edge) (hpre : pre ≠ [])
    (ht : ∀ x ∈ pre, 0 < x.micros ∧ x.micros < 4294967296) :
    (run N U (initialState N) pre).cycleStart = frameStart U pre
      ∧ (newCycle U (run N U (initialState N) pre) e.micros = true
          ↔ U < elapsed e.micros (frameStart U pre))
      ∧ (U < elapsed e.micros (frameStart U pre) →
          (clock_Interrupt_Handler N U e.micros e.high (run N U (initialState N) pre)).currentByte
              = ((run N U (initialState N) pre).currentByte + 1) % N
            ∧ load (clock_Interrupt_Handler N U e.micros e.high (run N U (initialState N) pre))
              = bitValue e.high)
      ∧ (¬ U < elapsed e.micros (frameStart U pre) →
          (clock_Interrupt_Handler N U e.micros e.high (run N U (initialState N) pre)).currentByte
              = (run N U (initialState N) pre).currentByte
            ∧ load (clock_Interrupt_Handler N U e.micros e.high (run N U (initialState N) pre))
              = (load (run N U (initialState N) pre) * 2) % 256 + bitValue e.high) := by
  obtain ⟨hcs, h0⟩ := run_initial_cycleStart N U pre hpre ht
  obtain ⟨hcur, hlen, _⟩ := run_initial_tracks N U hN pre ht
  have hc : (run N U (initialState N) pre).currentByte < N := by
    rw [hcur]
    exact Nat.mod_lt _ hN
  have hiff : newCycle U (run N U (initialState N) pre) e.micros = true
      ↔ U < elapsed e.micros (frameStart U pre) := by
    rw [newCycle_iff, hcs]
    constructor
    · intro h
      rcases h with h | h
      · rw [hcs] at h0
        exact absurd h h0
      · exact h
    · exact Or.inr
  refine ⟨hcs, hiff, ?_, ?_⟩
  · intro hU
    have hU' : U < elapsed e.micros (run N U (initialState N) pre).cycleStart := by
      rw [hcs]
      exact hU
    refine ⟨cursor_after_newCycle N U e.micros e.high _ h0 hc hU', ?_⟩
    exact load_after_newCycle N U e.micros e.high _ (hiff.2 hU)
      (by rw [hlen]; exact advance_in_bounds N _ hc)
  · intro hU
    have hU' : ¬ U < elapsed e.micros (run N U (initialState N) pre).cycleStart := by
      rw [hcs]
      exact hU
    refine ⟨cursor_after_sameCycle N U e.micros e.high _ h0 hU', ?_⟩
    exact load_after_sameCycle N U e.micros e.high _
      ((newCycle_false_iff U _ e.micros).2 ⟨h0, hU'⟩) (by rw [hlen]; exact hc)

/-- Witness of C14 as amended: three slots, threshold 1000, the edges at 5 and
605 followed by an edge at 1205. -/
theorem frame_boundary_witness :
    (1 ≤ 3 ∧ [Edge.mk 5 true, Edge.mk 605 true] ≠ []
        ∧ ∀ x ∈ [Edge.mk 5 true, Edge.mk 605 true], 0 < x.micros ∧ x.micros < 4294967296)
      ∧ (newCycle 1000 (run 3 1000 (initialState 3) [Edge.mk 5 true, Edge.mk 605 true])
            (Edge.mk 1205 true).micros = true
          ↔ 1000 < elapsed (Edge.mk 1205 true).micros
              (frameStart 1000 [Edge.mk 5 true, Edge.mk 605 true])) :=
  ⟨⟨by decide, by decide, by decide⟩,
    (frame_boundary 3 1000 (by decide) [Edge.mk 5 true, Edge.mk 605 true] (Edge.mk 1205 true)
      (by decide) (by decide)).2.1⟩

/-- C15. In a state with `cycleStart` not 0 and the cursor on a byte of the
buffer, an edge whose elapsed time `(now - cycleStart) mod 2^32` is at most
`UPDATE_TIME_MAX` leaves `cycleStart`, the cursor and the model as they are and
replaces the byte `v` at the cursor by `(2 * v + b) mod 256`, `b` being 1 for a
high data line and 0 otherwise; no byte is zeroed and no other byte changes. -/
theorem mid_frame_step (N U t : Nat) (high : Bool) (s : State)
    (h0 : s.cycleStart ≠ 0) (hin : s.currentByte < s.byteBuffer.length)
    (hU : elapsed t s.cycleStart ≤ U) :
    (clock_Interrupt_Handler N U t high s).cycleStart = s.cycleStart
      ∧ (clock_Interrupt_Handler N U t high s).currentByte = s.currentByte
      ∧ (clock_Interrupt_Handler N U t high s).byteBuffer.getD s.currentByte 0
          = (2 * s.byteBuffer.getD s.currentByte 0 + (if high then 1 else 0)) % 256
      ∧ (clock_Interrupt_Handler N U t high s).byteBuffer
          = s.byteBuffer.set s.currentByte
              ((2 * s.byteBuffer.getD s.currentByte 0 + (if high then 1 else 0)) % 256)
      ∧ (clock_Interrupt_Handler N U t high s).acModel = s.acModel := by
  have hn : newCycle U s t = false :=
    (newCycle_false_iff U s t).2 ⟨h0, Nat.not_lt.mpr hU⟩
  have hb := bitValue_le_one high
  have hval : (s.byteBuffer.getD s.currentByte 0 * 2) % 256 + bitValue high
      = (2 * s.byteBuffer.getD s.currentByte 0 + (if high then 1 else 0)) % 256 := by
    have e : (if high then 1 else 0) = bitValue high := rfl
    rw [e]
    omega
  rw [handler_sameCycle N U t high s hn, hval]
  refine ⟨rfl, rfl, ?_, rfl, rfl⟩
  simp only
  rw [set_getD_self, if_pos hin]

/-- Witness of C15: a state inside a frame begun at time 100 whose current byte
holds 200, and a high edge 300 microseconds into the frame. -/
theorem mid_frame_step_witness :
    ((100 : Nat) ≠ 0 ∧ 1 < [7, 200, 9].length ∧ elapsed 400 100 ≤ 1000)
      ∧ (clock_Interrupt_Handler 3 1000 400 true
          { acModel := AcModels.V1_4, cycleStart := 100, currentByte := 1,
            byteBuffer := [7, 200, 9] }).byteBuffer.getD 1 0
        = (2 * [7, 200, 9].getD 1 0 + (if true then 1 else 0)) % 256 :=
  ⟨⟨by decide, by decide, by decide⟩,
    (mid_frame_step 3 1000 400 true
      { acModel := AcModels.V1_4, cycleStart := 100, currentByte := 1, byteBuffer := [7, 200, 9] }
      (by decide) (by decide) (by decide)).2.2.1⟩

theorem handler_other_bytes (N U t : Nat) (high : Bool) (s : State) (i : Nat)
    (hi : i ≠ (clock_Interrupt_Handler N U t high s).currentByte) :
    (clock_Interrupt_Handler N U t high s).byteBuffer.getD i 0 = s.byteBuffer.getD i 0 := by
  cases hn : newCycle U s t
  · rw [handler_sameCycle N U t high s hn] at hi ⊢
    exact getD_set_ne _ _ _ _ (fun h => hi h.symm)
  · rw [handler_newCycle N U t high s hn] at hi ⊢
    exact getD_set_ne _ _ _ _ (fun h => hi h.symm)

theorem handler_length (N U t : Nat) (high : Bool) (s : State) :
    (clock_Interrupt_Handler N U t high s).byteBuffer.length = s.byteBuffer.length := by
  cases hn : newCycle U s t
  · rw [handler_sameCycle N U t high s hn]
    simp
  · rw [handler_newCycle N U t high s hn]
    simp

/-- C16. One invocation of the handler, from a state with the cursor below `N`,
changes no byte other than the one the cursor points to afterwards and keeps
the length of the buffer; when a frame start moves the cursor on in a buffer of
at least two bytes, the byte of the frame just ended is among those kept. -/
theorem one_byte_changed (N U t : Nat) (high : Bool) (s : State) (hc : s.currentByte < N) :
    (∀ i, i ≠ (clock_Interrupt_Handler N U t high s).currentByte →
        (clock_Interrupt_Handler N U t high s).byteBuffer.getD i 0 = s.byteBuffer.getD i 0)
      ∧ (clock_Interrupt_Handler N U t high s).byteBuffer.length = s.byteBuffer.length
      ∧ (clock_Interrupt_Handler N U t high s).currentByte < N
      ∧ (2 ≤ N → s.cycleStart ≠ 0 → U < elapsed t s.cycleStart →
          (clock_Interrupt_Handler N U t high s).byteBuffer.getD s.currentByte 0
            = s.byteBuffer.getD s.currentByte 0) := by
  refine ⟨fun i hi => handler_other_bytes N U t high s i hi, handler_length N U t high s,
    handler_keeps_cursor N U t high s (by omega) hc, ?_⟩
  intro hN h0 hU
  apply handler_other_bytes
  rw [cursor_after_newCycle N U t high s h0 hc hU]
  by_cases h : s.currentByte + 1 = N
  · rw [h, Nat.mod_self]
    omega
  · rw [Nat.mod_eq_of_lt (by omega)]
    omega

/-- Witness of C16: three slots, the cursor on the last one, and an edge that
starts a frame. -/
theorem one_byte_changed_witness :
    (2 : Nat) < 3
      ∧ (clock_Interrupt_Handler 3 1000 5000 true
          { acModel := AcModels.V1_4, cycleStart := 100, currentByte := 2,
            byteBuffer := [7, 200, 9] }).byteBuffer.length = [7, 200, 9].length :=
  ⟨by decide,
    (one_byte_changed 3 1000 5000 true
      { acModel := AcModels.V1_4, cycleStart := 100, currentByte := 2, byteBuffer := [7, 200, 9] }
      (by decide)).2.1⟩

theorem elapsed_add (c d : Nat) (hd : d < 4294967296) :
    elapsed ((c + d) % 4294967296) c = d := by
  unfold elapsed
  omega

theorem cycleStart_changes_iff (N U t : Nat) (high : Bool) (s : State)
    (h0 : s.cycleStart ≠ 0) :
    (clock_Interrupt_Handler N U t high s).cycleStart ≠ s.cycleStart
      ↔ U < elapsed t s.cycleStart := by
  by_cases hU : U < elapsed t s.cycleStart
  · have hn : newCycle U s t = true := (newCycle_iff U s t).2 (Or.inr hU)
    rw [handler_newCycle N U t high s hn]
    simp only [hU, iff_true]
    intro h
    unfold elapsed at hU
    omega
  · have hn : newCycle U s t = false := (newCycle_false_iff U s t).2 ⟨h0, hU⟩
    rw [handler_sameCycle N U t high s hn]
    simp [hU]

/-- C17. The frame test is 32-bit unsigned arithmetic: converting the counter
to `int` and subtracting `cycleStart` as unsigned gives `(now - cycleStart) mod
2^32`.  So from a state with `cycleStart` not 0 the handler starts a new frame
(stores `now` in `cycleStart`, moves the cursor on and makes the byte there the
sampled bit) when that value exceeds `UPDATE_TIME_MAX`, and otherwise keeps
`cycleStart` and the cursor and shifts the byte, for every counter value `now`,
also one below `cycleStart` or at least `2^31`, and every threshold; when `now`
is the counter value a true time `d < 2^32` after `cycleStart`, wrapped or not,
the handler starts a new frame exactly when `d > UPDATE_TIME_MAX`. -/
theorem timer_wraparound (N U t : Nat) (high : Bool) (s : State)
    (h0 : s.cycleStart ≠ 0) (hc : s.currentByte < N) (hl : s.byteBuffer.length = N) :
    toUnsigned (toSigned t - (s.cycleStart : Int))
        = ((((t : Int) - (s.cycleStart : Int)) % 4294967296).toNat)
      ∧ (newCycle U s t = true
          ↔ U < ((((t : Int) - (s.cycleStart : Int)) % 4294967296).toNat))
      ∧ (U < ((((t : Int) - (s.cycleStart : Int)) % 4294967296).toNat) →
          (clock_Interrupt_Handler N U t high s).cycleStart = t % 4294967296
            ∧ (clock_Interrupt_Handler N U t high s).currentByte = (s.currentByte + 1) % N
            ∧ load (clock_Interrupt_Handler N U t high s) = (if high then 1 else 0))
      ∧ (¬ U < ((((t : Int) - (s.cycleStart : Int)) % 4294967296).toNat) →
          (clock_Interrupt_Handler N U t high s).cycleStart = s.cycleStart
            ∧ (clock_Interrupt_Handler N U t high s).currentByte = s.currentByte
            ∧ load (clock_Interrupt_Handler N U t high s)
              = (load s * 2) % 256 + (if high then 1 else 0))
      ∧ ((clock_Interrupt_Handler N U t high s).cycleStart ≠ s.cycleStart
          ↔ U < ((((t : Int) - (s.cycleStart : Int)) % 4294967296).toNat))
      ∧ (∀ d, d < 4294967296 →
          (newCycle U s ((s.cycleStart + d) % 4294967296) = true ↔ U < d)
            ∧ ((clock_Interrupt_Handler N U ((s.cycleStart + d) % 4294967296) high s).cycleStart
                ≠ s.cycleStart ↔ U < d)
            ∧ (U < d →
                (clock_Interrupt_Handler N U ((s.cycleStart + d) % 4294967296) high s).currentByte
                  = (s.currentByte + 1) % N)
            ∧ (¬ U < d →
                (clock_Interrupt_Handler N U ((s.cycleStart + d) % 4294967296) high s).currentByte
                  = s.currentByte)) := by
  have hel : ((((t : Int) - (s.cycleStart : Int)) % 4294967296).toNat) = elapsed t s.cycleStart :=
    rfl
  have hbit : (if high then 1 else 0) = bitValue high := rfl
  have hnc : ∀ t', newCycle U s t' = true ↔ U < elapsed t' s.cycleStart := by
    intro t'
    rw [newCycle_iff]
    constructor
    · intro h
      rcases h with h | h
      · exact absurd h h0
      · exact h
    · exact Or.inr
  rw [hel, hbit]
  refine ⟨toUnsigned_sub t s.cycleStart, hnc t, ?_, ?_,
    cycleStart_changes_iff N U t high s h0, ?_⟩
  · intro hU
    have hn := (hnc t).2 hU
    refine ⟨?_, cursor_after_newCycle N U t high s h0 hc hU, ?_⟩
    · rw [handler_newCycle N U t high s hn]
    · exact load_after_newCycle N U t high s hn (by rw [hl]; exact advance_in_bounds N s hc)
  · intro hU
    have hn : newCycle U s t = false := (newCycle_false_iff U s t).2 ⟨h0, hU⟩
    refine ⟨?_, cursor_after_sameCycle N U t high s h0 hU, ?_⟩
    · rw [handler_sameCycle N U t high s hn]
    · exact load_after_sameCycle N U t high s hn (by rw [hl]; exact hc)
  · intro d hd
    have hd' := elapsed_add s.cycleStart d hd
    refine ⟨?_, ?_, ?_, ?_⟩
    · rw [hnc, hd']
    · rw [cycleStart_changes_iff N U _ high s h0, hd']
    · intro hU
      exact cursor_after_newCycle N U _ high s h0 hc (by rw [hd']; exact hU)
    · intro hU
      exact cursor_after_sameCycle N U _ high s h0 (by rw [hd']; exact hU)

/-- Witness of C17: a frame begun at counter value 4294967000 with the cursor
on the last of three bytes, and an edge at counter value 704, 1000 microseconds
later across the wrap, against threshold 999. -/
theorem timer_wraparound_witness :
    ((4294967000 : Nat) ≠ 0 ∧ (2 : Nat) < 3 ∧ [7, 8, 9].length = 3)
      ∧ (999 < ((((704 : Nat) : Int) - ((4294967000 : Nat) : Int)) % 4294967296).toNat →
          (clock_Interrupt_Handler 3 999 704 true
              { acModel := AcModels.V1_2, cycleStart := 4294967000, currentByte := 2,
                byteBuffer := [7, 8, 9] }).cycleStart = 704 % 4294967296
            ∧ (clock_Interrupt_Handler 3 999 704 true
              { acModel := AcModels.V1_2, cycleStart := 4294967000, currentByte := 2,
                byteBuffer := [7, 8, 9] }).currentByte = (2 + 1) % 3
            ∧ load (clock_Interrupt_Handler 3 999 704 true
              { acModel := AcModels.V1_2, cycleStart := 4294967000, currentByte := 2,
                byteBuffer := [7, 8, 9] }) = (if true then 1 else 0)) :=
  ⟨⟨by decide, by decide, by decide⟩,
    (timer_wraparound 3 999 704 true
      { acModel := AcModels.V1_2, cycleStart := 4294967000, currentByte := 2,
        byteBuffer := [7, 8, 9] }
      (by decide) (by decide) (by decide)).2.2.1⟩

/-- C18. A frame of `k > 8` edges (a frame-starting edge and `k - 1` edges that
stay in the cycle) leaves at the cursor the number formed by its last 8 levels,
the most recent one in the least-significant bit; a second such frame with the
same last 8 levels, from any state, leaves the same byte; the bytes away from
the cursor are those of the state before the frame and the buffer keeps its
length. -/
theorem overlong_frame (N U : Nat) (s : State) (e : Edge) (rest : List Edge)
    (hc : s.currentByte < N) (hl : s.byteBuffer.length = N)
    (hnew : newCycle U s e.micros = true)
    (hmid : countNewCycles N U (clock_Interrupt_Handler N U e.micros e.high s) rest = 0)
    (hk : 8 < (e :: rest).length) :
    load (run N U s (e :: rest))
        = bitSum ((levels (e :: rest)).drop ((e :: rest).length - 8))
      ∧ (∀ (s' : State) (e' : Edge) (rest' : List Edge),
          s'.currentByte < N → s'.byteBuffer.length = N →
          newCycle U s' e'.micros = true →
          countNewCycles N U (clock_Interrupt_Handler N U e'.micros e'.high s') rest' = 0 →
          8 < (e' :: rest').length →
          (levels (e' :: rest')).drop ((e' :: rest').length - 8)
            = (levels (e :: rest)).drop ((e :: rest).length - 8) →
          load (run N U s' (e' :: rest')) = load (run N U s (e :: rest)))
      ∧ (∀ i, i ≠ (run N U s (e :: rest)).currentByte →
          (run N U s (e :: rest)).byteBuffer.getD i 0 = s.byteBuffer.getD i 0)
      ∧ (run N U s (e :: rest)).byteBuffer.length = N := by
  have key : ∀ (s' : State) (e' : Edge) (rest' : List Edge),
      s'.currentByte < N → s'.byteBuffer.length = N →
      newCycle U s' e'.micros = true →
      countNewCycles N U (clock_Interrupt_Handler N U e'.micros e'.high s') rest' = 0 →
      8 < (e' :: rest').length →
      load (run N U s' (e' :: rest'))
        = bitSum ((levels (e' :: rest')).drop ((e' :: rest').length - 8)) := by
    intro s' e' rest' hc' hl' hnew' hmid' hk'
    have hlen : (levels (e' :: rest')).length = (e' :: rest').length := by simp [levels]
    rw [(load_run_frame N U s' e' rest' hc' hl' hnew' hmid').1,
      frameValue_last_eight _ (by rw [hlen]; omega), hlen]
  obtain ⟨_, hlen, _, hother⟩ := load_run_frame N U s e rest hc hl hnew hmid
  refine ⟨key s e rest hc hl hnew hmid hk, ?_, hother, hlen⟩
  intro s' e' rest' hc' hl' hnew' hmid' hk' hsame
  rw [key s' e' rest' hc' hl' hnew' hmid' hk', key s e rest hc hl hnew hmid hk, hsame]

/-- Witness of C18: one slot, threshold 1000, and a frame of nine edges whose
first level is high and whose other levels are low. -/
theorem overlong_frame_witness :
    ((0 : Nat) < 1 ∧ [77].length = 1
        ∧ newCycle 1000
            { acModel := AcModels.V1_2, cycleStart := 100, currentByte := 0, byteBuffer := [77] }
            5000 = true
        ∧ countNewCycles 1 1000
            (clock_Interrupt_Handler 1 1000 5000 true
              { acModel := AcModels.V1_2, cycleStart := 100, currentByte := 0,
                byteBuffer := [77] })
            [Edge.mk 5010 false, Edge.mk 5020 false, Edge.mk 5030 false, Edge.mk 5040 false,
              Edge.mk 5050 false, Edge.mk 5060 false, Edge.mk 5070 false, Edge.mk 5080 false] = 0
        ∧ 8 < (Edge.mk 5000 true ::
            [Edge.mk 5010 false, Edge.mk 5020 false, Edge.mk 5030 false, Edge.mk 5040 false,
              Edge.mk 5050 false, Edge.mk 5060 false, Edge.mk 5070 false,
              Edge.mk 5080 false]).length)
      ∧ load (run 1 1000
          { acModel := AcModels.V1_2, cycleStart := 100, currentByte := 0, byteBuffer := [77] }
          (Edge.mk 5000 true ::
            [Edge.mk 5010 false, Edge.mk 5020 false, Edge.mk 5030 false, Edge.mk 5040 false,
              Edge.mk 5050 false, Edge.mk 5060 false, Edge.mk 5070 false, Edge.mk 5080 false]))
        = 0 :=
  ⟨⟨by decide, by decide, by decide, by decide, by decide⟩,
    (overlong_frame 1 1000
      { acModel := AcModels.V1_2, cycleStart := 100, currentByte := 0, byteBuffer := [77] }
      (Edge.mk 5000 true)
      [Edge.mk 5010 false, Edge.mk 5020 false, Edge.mk 5030 false, Edge.mk 5040 false,
        Edge.mk 5050 false, Edge.mk 5060 false, Edge.mk 5070 false, Edge.mk 5080 false]
      (by decide) (by decide) (by decide) (by decide) (by decide)).1⟩

end AcDisplayReader
